import Mathlib

/-!
Shallow embedding of the generic quantity algebra generated by the `system!`
macro in `src/system.rs` of the `uom` crate.

The macro is generic over a system of `n` base quantities.  We embed:

* `Dimension n` — the exponent vector (`type $symbol: Integer` associated
  types of the `Dimension` trait), one signed integer per base quantity.
* `Unit` — a concrete base unit: its conversion scale relative to the base
  unit of its quantity (`Conversion::conversion()`) plus display metadata
  (`Unit::abbreviation()`, `singular()`, `plural()`).
* `Units n` — a system of units: the chosen base unit per base quantity
  (`type $name: Unit + Conversion` associated types of the `Units` trait).
* `Quantity n` — the value type; the phantom `D`/`U` type parameters of the
  Rust `Quantity<D, U, V>` are embedded as record fields, the stored value
  `V` is modelled by `ℚ` (an exact numeric storage type).

The conversion-coefficient type `V::T` of the `Conversion` trait is also
modelled by `ℚ`; `intoConversion`/`coeffValue` mark the points where the
Rust code crosses between the storage type and the coefficient type.
Sequenced macro expansions (`$( ... )+`) become left folds over
`List.finRange n`, preserving the expansion order.
-/

namespace Uom

/-- Exponent vector of a dimension: one type-level integer per base quantity
of the system of quantities (the `$symbol` associated types). -/
abbrev Dimension (n : Nat) : Type := Fin n → Int

/-- A concrete unit: conversion scale to the base unit of its quantity
(`Conversion::conversion()`) and display metadata from the `Unit` trait. -/
structure Unit where
  conversion : ℚ
  abbreviation : String
  singular : String
  plural : String

/-- A system of units: one chosen base unit per base quantity (the `$name`
associated types of the `Units` trait). -/
abbrev Units (n : Nat) : Type := Fin n → Unit

/-- Modelled from the spec: `Conversion::into_conversion` of the storage
type, injecting a stored value into the wider/guaranteed-precision
coefficient type; with exact rational storage it is the identity map. -/
def intoConversion (v : ℚ) : ℚ := v

/-- Modelled from the spec: `ConversionFactor::value`, narrowing a
coefficient back to the storage type once at the end of a conversion; with
exact rational storage it is the identity map. -/
def coeffValue (t : ℚ) : ℚ := t

/-- Iterated multiplication of a conversion coefficient (natural-number
power, the positive half of `ConversionFactor::powi`). -/
def qpowNat (q : ℚ) : Nat → ℚ
  | 0 => 1
  | m + 1 => qpowNat q m * q

/-- Modelled from the spec: `ConversionFactor::powi`, integer
exponentiation of a conversion coefficient, taking the reciprocal for a
negative exponent. -/
def powi (q : ℚ) (d : Int) : ℚ :=
  if 0 ≤ d then qpowNat q d.toNat else (qpowNat q (-d).toNat)⁻¹

/-- Modelled from the spec: `V::conversion()`, the storage type's own
conversion factor — the identity scale `1` (a stored value is its own base
representation). -/
def Vconversion : ℚ := 1

/-- Modelled from the spec: the storage type's `%` operator (Rust `Num`
remainder, truncated-division based for primitive numeric types). -/
def qrem (a b : ℚ) : ℚ := a - b * (Int.tdiv (a / b).num (Int.ofNat (a / b).den) : ℚ)

/-- `Quantity<D, U, V>`: stored value in the base units implied by `U`,
with the phantom dimension and units tags embedded as data. -/
structure Quantity (n : Nat) where
  dim : Dimension n
  units : Units n
  value : ℚ

/-- `from_base::<D, U, V, N>`: convert a value from base units to the given
unit `N` (embedded by its conversion scale `N::conversion()`). -/
def from_base {n : Nat} (D : Dimension n) (U : Units n) (N : ℚ) (v : ℚ) : ℚ :=
  coeffValue
    ((List.finRange n).foldl (fun acc i => acc * powi (U i).conversion (D i))
        (intoConversion v)
      / N)

/-- `to_base::<D, U, V, N>`: convert a value from the given unit `N` to
base units. -/
def to_base {n : Nat} (D : Dimension n) (U : Units n) (N : ℚ) (v : ℚ) : ℚ :=
  coeffValue
    (intoConversion v * N
      / ((List.finRange n).foldl (fun acc i => acc * powi (U i).conversion (D i))
          Vconversion))

/-- `change_base::<D, Ul, Ur, V>`: convert a value from the base
representation of `Ur` to the base representation of `Ul`. -/
def change_base {n : Nat} (D : Dimension n) (Ul Ur : Units n) (v : ℚ) : ℚ :=
  coeffValue
    ((List.finRange n).foldl
      (fun acc i => acc * powi (Ur i).conversion (D i) / powi (Ul i).conversion (D i))
      (intoConversion v))

/-- `Add` for `Quantity` (identical dimension, possibly different units):
`self.value + change_base::<D, Ul, Ur, V>(&rhs.value)`, result keeps the
left operand's dimension and units. -/
def Quantity.add {n : Nat} (x y : Quantity n) : Quantity n :=
  ⟨x.dim, x.units, x.value + change_base x.dim x.units y.units y.value⟩

/-- `Sub` for `Quantity`. -/
def Quantity.sub {n : Nat} (x y : Quantity n) : Quantity n :=
  ⟨x.dim, x.units, x.value - change_base x.dim x.units y.units y.value⟩

/-- `AddAssign` for `Quantity`: mutates only the stored value. -/
def Quantity.add_assign {n : Nat} (x y : Quantity n) : Quantity n :=
  { x with value := x.value + change_base x.dim x.units y.units y.value }

/-- `SubAssign` for `Quantity`. -/
def Quantity.sub_assign {n : Nat} (x y : Quantity n) : Quantity n :=
  { x with value := x.value - change_base x.dim x.units y.units y.value }

/-- `Rem` for `Quantity`: `self.value % change_base::<D, Ul, Ur, V>(&rhs.value)`. -/
def Quantity.rem {n : Nat} (x y : Quantity n) : Quantity n :=
  ⟨x.dim, x.units, qrem x.value (change_base x.dim x.units y.units y.value)⟩

/-- `RemAssign` for `Quantity`. -/
def Quantity.rem_assign {n : Nat} (x y : Quantity n) : Quantity n :=
  { x with value := qrem x.value (change_base x.dim x.units y.units y.value) }

/-- `Mul<Quantity<Dr, Ur, V>>` for `Quantity<Dl, Ul, V>`: output dimension
`Sum<Dl::$symbol, Dr::$symbol>` per base quantity, output units `Ul`, value
`self.value * change_base::<Dr, Ul, Ur, V>(&rhs.value)`. -/
def Quantity.mul {n : Nat} (x y : Quantity n) : Quantity n :=
  ⟨fun i => x.dim i + y.dim i, x.units,
    x.value * change_base y.dim x.units y.units y.value⟩

/-- `Div<Quantity<Dr, Ur, V>>` for `Quantity<Dl, Ul, V>`: output dimension
`Diff<Dl::$symbol, Dr::$symbol>` per base quantity. -/
def Quantity.div {n : Nat} (x y : Quantity n) : Quantity n :=
  ⟨fun i => x.dim i - y.dim i, x.units,
    x.value / change_base y.dim x.units y.units y.value⟩

/-- `Mul<V>` for `Quantity` (scalar on the right): `self.value * rhs`,
dimension and units unchanged. -/
def Quantity.mul_scalar {n : Nat} (q : Quantity n) (s : ℚ) : Quantity n :=
  ⟨q.dim, q.units, q.value * s⟩

/-- `Div<V>` for `Quantity` (scalar on the right). -/
def Quantity.div_scalar {n : Nat} (q : Quantity n) (s : ℚ) : Quantity n :=
  ⟨q.dim, q.units, q.value / s⟩

/-- `MulAssign<V>` for `Quantity`: `self.value *= rhs`, mutating only the
stored value. -/
def Quantity.mul_assign_scalar {n : Nat} (q : Quantity n) (s : ℚ) : Quantity n :=
  { q with value := q.value * s }

/-- `DivAssign<V>` for `Quantity`. -/
def Quantity.div_assign_scalar {n : Nat} (q : Quantity n) (s : ℚ) : Quantity n :=
  { q with value := q.value / s }

/-- `Mul<Quantity<D, U, V>>` for `V` (scalar on the left): output dimension
`Sum<Z0, D::$symbol>` per base quantity, value `self * rhs.value`. -/
def scalarMul {n : Nat} (s : ℚ) (q : Quantity n) : Quantity n :=
  ⟨fun i => 0 + q.dim i, q.units, s * q.value⟩

/-- `Div<Quantity<D, U, V>>` for `V` (scalar on the left): output dimension
`Diff<Z0, D::$symbol>` per base quantity, value `self / rhs.value`. -/
def scalarDiv {n : Nat} (s : ℚ) (q : Quantity n) : Quantity n :=
  ⟨fun i => 0 - q.dim i, q.units, s / q.value⟩

/-- Modelled from the spec: the storage type's fused multiply-add
(`num::Float::mul_add`), computing `(self * a) + b`; exact with rational
storage, so the single rounding of the float version is the identity. -/
def mulAdd (x a b : ℚ) : ℚ := x * a + b

/-- `Quantity::mul_add`: output dimension `Sum<D::$symbol, Da::$symbol>`
per base quantity, output units `U` (self's), value
`self.value.mul_add(a.value, b.value)` on the raw stored values. -/
def Quantity.mul_add {n : Nat} (x a b : Quantity n) : Quantity n :=
  ⟨fun i => x.dim i + a.dim i, x.units, mulAdd x.value a.value b.value⟩

/-- `Zero::zero` for `Quantity`: stored value `V::zero()`. -/
def Quantity.zero {n : Nat} (D : Dimension n) (U : Units n) : Quantity n :=
  ⟨D, U, 0⟩

/-- `Zero::is_zero` for `Quantity`: `self.value.is_zero()`. -/
def Quantity.is_zero {n : Nat} (q : Quantity n) : Bool :=
  decide (q.value = 0)

/-- `Debug` for `Quantity`: format the stored value, then for each base
quantity in declaration order with nonzero dimension exponent `d`, append
`" {abbreviation}^{d}"` (exponent-zero base quantities are skipped). -/
def debugFmt {n : Nat} (q : Quantity n) : String :=
  (List.finRange n).foldl
    (fun s i =>
      if q.dim i ≠ 0 then
        s ++ " " ++ (q.units i).abbreviation ++ "^" ++ toString (q.dim i)
      else s)
    (toString q.value)

/-- Length-like dimension in a one-base-quantity system: exponent 1. -/
def exDimL : Dimension 1 := fun _ => 1

/-- Squared dimension in a one-base-quantity system: exponent 2. -/
def exDim2 : Dimension 1 := fun _ => 2

/-- Unit system choosing a unit of scale `1` (e.g. meter). -/
def exUnitA : Units 1 := fun _ => ⟨1, "m", "meter", "meters"⟩

/-- Unit system choosing a unit of scale `0.3048` (e.g. foot). -/
def exUnitB : Units 1 := fun _ => ⟨(3048 : ℚ) / 10000, "ft", "foot", "feet"⟩

/-- Unit system choosing a unit of scale `2`. -/
def exUnitC : Units 1 := fun _ => ⟨2, "u", "unit", "units"⟩

/-- Unfolding `qpowNat` into the ambient power operation. -/
theorem qpowNat_eq_pow (q : ℚ) (m : Nat) : qpowNat q m = q ^ m := by
  induction m with
  | zero => rfl
  | succ m ih => rw [qpowNat, ih, pow_succ]

/-- `powi` agrees with the integer power of the field `ℚ`. -/
theorem powi_eq_zpow (q : ℚ) (d : Int) : powi q d = q ^ d := by
  cases d with
  | ofNat m => simp [powi, qpowNat_eq_pow, zpow_natCast]
  | negSucc m =>
      rw [powi, if_neg (Int.negSucc_lt_zero m).not_le, zpow_negSucc, qpowNat_eq_pow]
      norm_num [Int.neg_negSucc]

/-- A left fold multiplying an accumulator is the initial value times the
product of the factors. -/
theorem foldl_mul_closed {α : Type} (f : α → ℚ) (l : List α) (v : ℚ) :
    l.foldl (fun acc i => acc * f i) v = v * (l.map f).prod := by
  induction l generalizing v with
  | nil => simp
  | cons a t ih => simp [List.foldl_cons, ih, mul_assoc]

/-- A left fold multiplying and dividing an accumulator is the initial
value times the product of the ratios. -/
theorem foldl_mul_div_closed {α : Type} (f g : α → ℚ) (l : List α) (v : ℚ) :
    l.foldl (fun acc i => acc * f i / g i) v = v * (l.map (fun i => f i / g i)).prod := by
  induction l generalizing v with
  | nil => simp
  | cons a t ih =>
      simp only [List.foldl_cons, List.map_cons, List.prod_cons, ih]
      ring

/-- Closed form of `change_base`: the stored value times the per-base-quantity
ratios of scale powers, in expansion order. -/
theorem change_base_closed {n : Nat} (D : Dimension n) (Ul Ur : Units n) (v : ℚ) :
    change_base D Ul Ur v
      = v * ((List.finRange n).map
          (fun i => powi (Ur i).conversion (D i) / powi (Ul i).conversion (D i))).prod := by
  simpa [change_base, coeffValue, intoConversion] using
    foldl_mul_div_closed (fun i => powi (Ur i).conversion (D i))
      (fun i => powi (Ul i).conversion (D i)) (List.finRange n) v

/-- `change_base` multiplies by `((right scale)/(left scale)) ^ exponent`
for every base quantity. -/
theorem change_base_eq_ratio_prod {n : Nat} (D : Dimension n) (Ul Ur : Units n) (v : ℚ) :
    change_base D Ul Ur v
      = v * ((List.finRange n).map
          (fun i => ((Ur i).conversion / (Ul i).conversion) ^ (D i))).prod := by
  have h : (fun i => powi (Ur i).conversion (D i) / powi (Ul i).conversion (D i))
      = (fun i => ((Ur i).conversion / (Ul i).conversion) ^ (D i)) := by
    funext i
    rw [powi_eq_zpow, powi_eq_zpow, div_zpow]
  rw [change_base_closed, h]

/-- `change_base` between identical unit systems with nonzero scales is the
identity. -/
theorem change_base_self {n : Nat} (D : Dimension n) (U : Units n) (v : ℚ)
    (h : ∀ i, (U i).conversion ≠ 0) :
    change_base D U U v = v := by
  rw [change_base_eq_ratio_prod]
  have h1 : ∀ x ∈ (List.finRange n).map
      (fun i => ((U i).conversion / (U i).conversion) ^ (D i)), x = 1 := by
    intro x hx
    rcases List.mem_map.mp hx with ⟨i, _, rfl⟩
    rw [div_self (h i), one_zpow]
  rw [List.prod_eq_one h1, mul_one]

/-- `change_base` of a zero stored value is zero. -/
theorem change_base_zero {n : Nat} (D : Dimension n) (Ul Ur : Units n) :
    change_base D Ul Ur 0 = 0 := by
  rw [change_base_closed, zero_mul]

/-- Closed form of `from_base`. -/
theorem from_base_closed {n : Nat} (D : Dimension n) (U : Units n) (N v : ℚ) :
    from_base D U N v
      = v * ((List.finRange n).map (fun i => powi (U i).conversion (D i))).prod / N := by
  simp only [from_base, coeffValue, intoConversion,
    foldl_mul_closed (fun i => powi (U i).conversion (D i)) (List.finRange n) v]

/-- Closed form of `to_base`. -/
theorem to_base_closed {n : Nat} (D : Dimension n) (U : Units n) (N v : ℚ) :
    to_base D U N v
      = v * N / (Vconversion *
          ((List.finRange n).map (fun i => powi (U i).conversion (D i))).prod) := by
  simp only [to_base, coeffValue, intoConversion,
    foldl_mul_closed (fun i => powi (U i).conversion (D i)) (List.finRange n) Vconversion]

/-- The product of scale powers of a unit system with nonzero scales is
nonzero. -/
theorem scale_prod_ne_zero {n : Nat} (D : Dimension n) (U : Units n)
    (h : ∀ i, (U i).conversion ≠ 0) :
    ((List.finRange n).map (fun i => powi (U i).conversion (D i))).prod ≠ 0 := by
  apply List.prod_ne_zero
  intro h0
  rcases List.mem_map.mp h0 with ⟨i, _, hi⟩
  rw [powi_eq_zpow] at hi
  exact zpow_ne_zero (D i) (h i) hi

/-- Folding string concatenation over a list factors through the initial
string. -/
theorem foldl_append_start (t : List String) (x : String) :
    t.foldl (fun r s => r ++ s) x = x ++ t.foldl (fun r s => r ++ s) "" := by
  induction t generalizing x with
  | nil => simp
  | cons a t ih =>
      simp only [List.foldl_cons]
      rw [ih (x ++ a), ih ("" ++ a), String.append_assoc]
      simp

/-- `String.join` of a cons cell. -/
theorem strjoin_cons (x : String) (t : List String) :
    String.join (x :: t) = x ++ String.join t := by
  simpa [String.join] using foldl_append_start t x

/-- The `Debug` fold over any index list appends, after the initial string,
the rendering of exactly the indices with nonzero exponent, in order. -/
theorem debug_foldl_closed {n : Nat} (q : Quantity n) (l : List (Fin n)) (s : String) :
    l.foldl
      (fun s i =>
        if q.dim i ≠ 0 then
          s ++ " " ++ (q.units i).abbreviation ++ "^" ++ toString (q.dim i)
        else s)
      s
    = s ++ String.join ((l.filter (fun i => decide (q.dim i ≠ 0))).map
        (fun i => " " ++ (q.units i).abbreviation ++ "^" ++ toString (q.dim i))) := by
  induction l generalizing s with
  | nil => simp [String.join]
  | cons a t ih =>
      by_cases h : q.dim a ≠ 0
      · rw [List.foldl_cons, if_pos h, List.filter_cons, if_pos (by simpa using h),
          List.map_cons, strjoin_cons, ih]
        simp [String.append_assoc]
      · rw [List.foldl_cons, if_neg h, List.filter_cons, if_neg (by simpa using h)]
        exact ih s

/-- C1: `change_base::<D, Ul, Ur, V>(v)` returns `v` multiplied, for every
base quantity, by `(right scale / left scale) ^ exponent`, the product being
computed in the coefficient type and narrowed to the storage type once at
the end; in particular it is the identity when both unit systems coincide
(scales being nonzero). -/
theorem change_base_ratio_pow {n : Nat} (D : Dimension n) (Ul Ur : Units n) (v : ℚ) :
    change_base D Ul Ur v
      = coeffValue (intoConversion v * ((List.finRange n).map
          (fun i => ((Ur i).conversion / (Ul i).conversion) ^ (D i))).prod)
    ∧ ((∀ i, (Ul i).conversion ≠ 0) → change_base D Ul Ul v = v) :=
  ⟨change_base_eq_ratio_prod D Ul Ur v, change_base_self D Ul v⟩

/-- Witness for C1 at a concrete input: unit scales `1` (both sides
nonzero), dimension exponent `1`, value `7`. -/
theorem change_base_ratio_pow_witness :
    (∀ i, (exUnitB i).conversion ≠ 0) ∧ change_base exDimL exUnitB exUnitB 7 = 7 := by
  have hU : ∀ i : Fin 1, (exUnitB i).conversion ≠ 0 := fun i => by norm_num [exUnitB]
  exact ⟨hU, (change_base_ratio_pow exDimL exUnitB exUnitB 7).2 hU⟩

/-- C2: `+`, `-`, `%` and their compound-assignment forms accept operands
of identical dimension but different units, convert the right operand's
stored value into the left operand's base representation via `change_base`,
combine numerically, and keep the left operand's dimension and units; in
particular `1` (base scale `1.0`) plus `1` (base scale `0.3048`) has stored
value `1.3048`. -/
theorem add_sub_rem_units_convert {n : Nat} (D : Dimension n) (Ul Ur : Units n) (a b : ℚ) :
    ((Quantity.mk D Ul a).add (Quantity.mk D Ur b)).value = a + change_base D Ul Ur b
    ∧ ((Quantity.mk D Ul a).add (Quantity.mk D Ur b)).dim = D
    ∧ ((Quantity.mk D Ul a).add (Quantity.mk D Ur b)).units = Ul
    ∧ ((Quantity.mk D Ul a).sub (Quantity.mk D Ur b)).value = a - change_base D Ul Ur b
    ∧ ((Quantity.mk D Ul a).sub (Quantity.mk D Ur b)).units = Ul
    ∧ ((Quantity.mk D Ul a).rem (Quantity.mk D Ur b)).value
        = qrem a (change_base D Ul Ur b)
    ∧ ((Quantity.mk D Ul a).rem (Quantity.mk D Ur b)).units = Ul
    ∧ ((Quantity.mk D Ul a).add_assign (Quantity.mk D Ur b)).value
        = a + change_base D Ul Ur b
    ∧ ((Quantity.mk D Ul a).sub_assign (Quantity.mk D Ur b)).value
        = a - change_base D Ul Ur b
    ∧ ((Quantity.mk D Ul a).rem_assign (Quantity.mk D Ur b)).value
        = qrem a (change_base D Ul Ur b)
    ∧ ((Quantity.mk exDimL exUnitA 1).add (Quantity.mk exDimL exUnitB 1)).value
        = 13048 / 10000 := by
  refine ⟨rfl, rfl, rfl, rfl, rfl, rfl, rfl, rfl, rfl, rfl, ?_⟩
  norm_num [Quantity.add, change_base, coeffValue, intoConversion, powi, qpowNat,
    exDimL, exUnitA, exUnitB, List.finRange_succ_eq_map, List.finRange_zero]

/-- C3: `a * b` has the component-wise sum of the operand dimensions and
`a / b` the component-wise difference; the value is `a`'s stored value times
respectively divided by `b`'s stored value converted into `a`'s base
representation via `change_base` over `b`'s own dimension, and the result
keeps the left operand's units. -/
theorem mul_div_dim_value {n : Nat} (x y : Quantity n) :
    (x.mul y).dim = (fun i => x.dim i + y.dim i)
    ∧ (x.div y).dim = (fun i => x.dim i - y.dim i)
    ∧ (x.mul y).units = x.units
    ∧ (x.div y).units = x.units
    ∧ (x.mul y).value = x.value * change_base y.dim x.units y.units y.value
    ∧ (x.div y).value = x.value / change_base y.dim x.units y.units y.value
    ∧ (x.mul y).value = x.value * (y.value * ((List.finRange n).map
        (fun i => ((y.units i).conversion / (x.units i).conversion) ^ (y.dim i))).prod)
    ∧ (x.div y).value = x.value / (y.value * ((List.finRange n).map
        (fun i => ((y.units i).conversion / (x.units i).conversion) ^ (y.dim i))).prod) :=
  ⟨rfl, rfl, rfl, rfl, rfl, rfl,
    by rw [Quantity.mul, change_base_eq_ratio_prod],
    by rw [Quantity.div, change_base_eq_ratio_prod]⟩

/-- C4: `from_base` and `to_base` over the same dimension, unit system and
concrete unit are mutually inverse (for nonzero conversion scales), in
either composition order. -/
theorem from_base_to_base_inverse {n : Nat} (D : Dimension n) (U : Units n) (N v : ℚ)
    (hN : N ≠ 0) (hU : ∀ i, (U i).conversion ≠ 0) :
    from_base D U N (to_base D U N v) = v ∧ to_base D U N (from_base D U N v) = v := by
  have hP := scale_prod_ne_zero D U hU
  constructor
  · rw [to_base_closed, from_base_closed, Vconversion]
    field_simp
  · rw [from_base_closed, to_base_closed, Vconversion]
    field_simp

/-- Witness for C4 at a concrete input: one base quantity of scale
`0.3048`, concrete unit scale `2`, value `5`. -/
theorem from_base_to_base_inverse_witness :
    (2 : ℚ) ≠ 0 ∧ (∀ i, (exUnitB i).conversion ≠ 0)
    ∧ from_base exDimL exUnitB 2 (to_base exDimL exUnitB 2 5) = 5
    ∧ to_base exDimL exUnitB 2 (from_base exDimL exUnitB 2 5) = 5 := by
  have hN : (2 : ℚ) ≠ 0 := by norm_num
  have hU : ∀ i : Fin 1, (exUnitB i).conversion ≠ 0 := fun i => by norm_num [exUnitB]
  have h := from_base_to_base_inverse exDimL exUnitB 2 5 hN hU
  exact ⟨hN, hU, h.1, h.2⟩

/-- C5: `mul_add(a, b)` with `b`'s dimension equal to the component-wise
sum of self's and `a`'s dimensions returns that sum dimension with self's
units; the value is the storage type's fused multiply-add of the three
stored values, `(self * a) + b`. -/
theorem mul_add_dim_value {n : Nat} (Dx Da : Dimension n) (Ux Ua Ub : Units n)
    (xv av bv : ℚ) :
    ((Quantity.mk Dx Ux xv).mul_add (Quantity.mk Da Ua av)
        (Quantity.mk (fun i => Dx i + Da i) Ub bv)).dim = (fun i => Dx i + Da i)
    ∧ ((Quantity.mk Dx Ux xv).mul_add (Quantity.mk Da Ua av)
        (Quantity.mk (fun i => Dx i + Da i) Ub bv)).units = Ux
    ∧ ((Quantity.mk Dx Ux xv).mul_add (Quantity.mk Da Ua av)
        (Quantity.mk (fun i => Dx i + Da i) Ub bv)).value = xv * av + bv :=
  ⟨rfl, rfl, rfl⟩

/-- C6: `mul_add` fuses the raw stored values with no unit conversion of
its second and third arguments, so with an argument in a different unit
system (scale `2` versus self's scale `1`) the result (`1`) differs from
the result after first converting that argument via `change_base` (`2`);
the binary `*` on the same operands does convert (also giving `2`). -/
theorem mul_add_no_conversion :
    (∀ (n : Nat) (x a b : Quantity n), (x.mul_add a b).value = x.value * a.value + b.value)
    ∧ ((Quantity.mk exDimL exUnitA 1).mul (Quantity.mk exDimL exUnitC 1)).value = 2
    ∧ ((Quantity.mk exDimL exUnitA 1).mul_add (Quantity.mk exDimL exUnitC 1)
        (Quantity.mk exDim2 exUnitA 0)).value = 1
    ∧ ((Quantity.mk exDimL exUnitA 1).mul_add
        (Quantity.mk exDimL exUnitA (change_base exDimL exUnitA exUnitC 1))
        (Quantity.mk exDim2 exUnitA 0)).value = 2
    ∧ (1 : ℚ) ≠ 2 := by
  refine ⟨fun n x a b => rfl, ?_, ?_, ?_, by norm_num⟩
  · norm_num [Quantity.mul, change_base, coeffValue, intoConversion, powi, qpowNat,
      exDimL, exUnitA, exUnitC, List.finRange_succ_eq_map, List.finRange_zero]
  · norm_num [Quantity.mul_add, mulAdd]
  · norm_num [Quantity.mul_add, mulAdd, change_base, coeffValue, intoConversion,
      powi, qpowNat, exDimL, exUnitA, exUnitC, List.finRange_succ_eq_map,
      List.finRange_zero]

/-- C7: a bare scalar times a quantity keeps the quantity's dimension
(each exponent `0 + d = d`), a bare scalar divided by a quantity negates
every exponent (`0 - d = -d`); both keep the quantity's units and combine
the numbers directly with no conversion. -/
theorem scalar_left_mul_div {n : Nat} (s : ℚ) (q : Quantity n) :
    (scalarMul s q).dim = q.dim
    ∧ (scalarDiv s q).dim = (fun i => -(q.dim i))
    ∧ (scalarMul s q).units = q.units
    ∧ (scalarDiv s q).units = q.units
    ∧ (scalarMul s q).value = s * q.value
    ∧ (scalarDiv s q).value = s / q.value := by
  refine ⟨?_, ?_, rfl, rfl, rfl, rfl⟩
  · funext i
    simp [scalarMul]
  · funext i
    simp [scalarDiv]

/-- C8: with the scalar on the right, `*`, `/`, `*=`, `/=` leave dimension
and units unchanged (in particular `q / s` does not negate the dimension,
unlike `s / q`) and combine the stored value with the scalar directly; the
assignment forms mutate only the value field. -/
theorem scalar_right_preserve {n : Nat} (q : Quantity n) (s : ℚ) :
    (q.mul_scalar s).dim = q.dim
    ∧ (q.mul_scalar s).units = q.units
    ∧ (q.mul_scalar s).value = q.value * s
    ∧ (q.div_scalar s).dim = q.dim
    ∧ (q.div_scalar s).units = q.units
    ∧ (q.div_scalar s).value = q.value / s
    ∧ (q.mul_assign_scalar s).dim = q.dim
    ∧ (q.mul_assign_scalar s).units = q.units
    ∧ (q.mul_assign_scalar s).value = q.value * s
    ∧ (q.div_assign_scalar s).dim = q.dim
    ∧ (q.div_assign_scalar s).units = q.units
    ∧ (q.div_assign_scalar s).value = q.value / s
    ∧ ((Quantity.mk exDimL exUnitA 1).div_scalar 1).dim
        ≠ (scalarDiv 1 (Quantity.mk exDimL exUnitA 1)).dim := by
  refine ⟨rfl, rfl, rfl, rfl, rfl, rfl, rfl, rfl, rfl, rfl, rfl, rfl, ?_⟩
  intro h
  have h0 := congrFun h ⟨0, Nat.zero_lt_one⟩
  simp [Quantity.div_scalar, scalarDiv, exDimL] at h0

/-- C9: `zero()` stores `V::zero()`, `is_zero()` holds exactly when the
stored value is zero, and `zero()` is a right additive identity for `+`
even when it carries a different unit system, because `change_base` of zero
is zero. -/
theorem zero_spec {n : Nat} (D : Dimension n) (U U2 : Units n) (q : Quantity n) :
    (Quantity.zero D U).value = 0
    ∧ (q.is_zero = true ↔ q.value = 0)
    ∧ q.add (Quantity.zero q.dim U2) = q := by
  refine ⟨rfl, by simp [Quantity.is_zero], ?_⟩
  cases q with
  | mk d u v => simp [Quantity.add, Quantity.zero, change_base_zero]

/-- C10: `Debug` prints the stored value and then, for exactly the base
quantities with nonzero exponent in declaration order, a space, the base
unit's abbreviation, a caret and the exponent; a length-one dimension of
value `5` with abbreviation `"m"` renders as `"5 m^1"`. -/
theorem debug_format_spec {n : Nat} (q : Quantity n) :
    debugFmt q = toString q.value
        ++ String.join (((List.finRange n).filter (fun i => decide (q.dim i ≠ 0))).map
            (fun i => " " ++ (q.units i).abbreviation ++ "^" ++ toString (q.dim i)))
    ∧ debugFmt (Quantity.mk exDimL exUnitA 5) = "5 m^1" :=
  ⟨debug_foldl_closed q (List.finRange n) (toString q.value), by decide⟩

end Uom
